import Mathlib

/-!
Shallow embedding of the debug-location correlation core of the
`starknet-simulator` repository, and proofs about it.

The embedded functions are:
* `generate_sierra_to_cairo_statement_info` (src/cairo_sierra/cairo_helper.rs):
  builds the statement-index → Cairo-info table (`SierraCairoInfoMapping`).
* `get_casm_sierra_mapping_instructions` (src/casm_sierra/cairo.rs):
  builds the flat encoded-word list (`casm_instructions`) and the
  instruction-index → statement-indices table (`casm_sierra_mapping`).
* `trace_error` (src/compiler/helper.rs): the pc → source-location query.

External collaborators (the Cairo compiler database: file names, offset →
line/column resolution, virtual-file interning; the casm assembler's
`assemble`/`encode`) are modelled as oracle inputs carried in records,
exactly as the repository code consumes them.

`IndexMap` (insertion-ordered map) is modelled as an association list in
insertion order; `entry(k).or_insert(..)` appends a fresh key at the end
and mutates an existing key in place, which the list operations below
reproduce.
-/

namespace StarknetSimulator

/-- `TextPosition` from cairo_helper.rs: 0-based line and column. -/
structure TextPosition where
  line : Nat
  col : Nat
deriving DecidableEq, Repr

/-- `CairoLocation` from cairo_helper.rs. `end` is a Lean keyword, hence `end_`. -/
structure CairoLocation where
  file_name : String
  start : TextPosition
  end_ : TextPosition
deriving DecidableEq, Repr

/-- `CairoInfo` from cairo_helper.rs. -/
structure CairoInfo where
  fn_name : String
  cairo_locations : Option (List CairoLocation)
deriving DecidableEq, Repr

/-- `IndexMap<u64, CairoInfo>` (and `IndexMap<u64, Vec<u64>>`) modelled as an
association list in insertion order. -/
abbrev IndexMap (α β : Type) : Type := List (α × β)

/-- `IndexMap::get`: value at a key, `none` when absent. -/
def IndexMap.get? {α β : Type} [DecidableEq α] (m : IndexMap α β) (k : α) : Option β :=
  (List.find? (fun p => p.1 = k) m).map Prod.snd

/-- List of keys, in insertion order. -/
def IndexMap.keys {α β : Type} (m : IndexMap α β) : List α :=
  List.map Prod.fst m

/-- In-place update of the value at a key (used for `get_mut` writes):
the key keeps its position, other entries are untouched. -/
def IndexMap.set {α β : Type} [DecidableEq α] (m : IndexMap α β) (k : α) (v : β) :
    IndexMap α β :=
  List.map (fun p => if p.1 = k then (k, v) else p) m

/-- `IndexMap::insert` of a key known to be absent: appends at the end
(insertion order). -/
def IndexMap.append {α β : Type} (m : IndexMap α β) (k : α) (v : β) : IndexMap α β :=
  m ++ [(k, v)]

/-- `map.entry(k).or_insert_with(Vec::new).push(v)` from cairo.rs: if `k` is
present, push `v` onto its list in place; otherwise append `(k, [v])` at the
end. Never overwrites an existing list. -/
def pushEntry (m : IndexMap Nat (List Nat)) (k : Nat) (v : Nat) : IndexMap Nat (List Nat) :=
  match m with
  | [] => [(k, [v])]
  | (k', l) :: rest => if k' = k then (k', l ++ [v]) :: rest else (k', l) :: pushEntry rest k v

/-- `CasmSierraMapping = IndexMap<u64, Vec<u64>>` from cairo.rs. -/
abbrev CasmSierraMapping : Type := IndexMap Nat (List Nat)

/-- The debug-annotation loop of `get_casm_sierra_mapping_instructions`
(cairo.rs lines 205-217): iterate `sierra_statement_info` in order with a
running statement counter, and push the counter onto the list keyed by the
entry's `instruction_idx`.  The input is the list of `instruction_idx` fields
of `sierra_statement_info`, in order. -/
def get_casm_sierra_mapping (sierra_statement_info : List Nat) : CasmSierraMapping :=
  List.foldl (fun m p => pushEntry m p.2 p.1) [] sierra_statement_info.enum

/-- `SierraCairoInfoMapping = IndexMap<u64, CairoInfo>` from cairo_helper.rs. -/
abbrev SierraCairoInfoMapping : Type := IndexMap Nat CairoInfo

/-- `SierraCairoStatement` from cairo_helper.rs. -/
structure SierraCairoStatement where
  contract_code : String
  sierra_cairo_statement_info : SierraCairoInfoMapping

/-- A raw `DiagnosticLocation` as consumed by cairo_helper.rs: a file id and a
byte-offset span (`location.span.start`, `location.span.end`). -/
structure DiagnosticLocation where
  file_id : Nat
  span_start : Nat
  span_end : Nat
deriving DecidableEq, Repr

/-- The compiler database (`db : &dyn FilesGroup`), an external collaborator:
`file_name`, offset → line/column resolution (`position_in_file`, `none` on
failure) and virtual-file interning (`lookup_intern_file`: `some content` when
the file id interns to `FileLongId::Virtual`, `none` otherwise). -/
structure Db where
  file_name : Nat → String
  position_in_file : Nat → Nat → Option TextPosition
  lookup_virtual : Nat → Option String

/-- Offset resolution as done twice per location in cairo_helper.rs lines
236-254: `position_in_file` on success, `{line: 0, col: 0}` on failure. -/
def resolvePosition (db : Db) (file_id offset : Nat) : TextPosition :=
  match db.position_in_file file_id offset with
  | some position => ⟨position.line, position.col⟩
  | none => ⟨0, 0⟩

/-- One iteration of the `for location in locations` loop of
cairo_helper.rs lines 224-268, threading the mutable state it touches:
`contract_content` and the statement's `cairo_locations` field. -/
def processLocation (db : Db) (acc : String × Option (List CairoLocation))
    (location : DiagnosticLocation) : String × Option (List CairoLocation) :=
  let contract_content := acc.1
  let cairo_locations := acc.2
  let file_name := db.file_name location.file_id
  let contract_content :=
    if contract_content.isEmpty ∧ file_name = "contract" then
      match db.lookup_virtual location.file_id with
      | some content => content
      | none => contract_content
    else contract_content
  let start_position := resolvePosition db location.file_id location.span_start
  let end_position := resolvePosition db location.file_id location.span_end
  let new_location : CairoLocation := ⟨file_name, start_position, end_position⟩
  match cairo_locations with
  | some locations => (contract_content, some (locations ++ [new_location]))
  | none => (contract_content, some [new_location])

/-- One iteration of the `for idx in 0..no_of_statements` loop of
cairo_helper.rs lines 205-271, threading the mapping and `contract_content`. -/
def processStatement (db : Db) (statements_functions_map : Nat → Option String)
    (diagnostic_locations : Nat → Option (List DiagnosticLocation))
    (acc : SierraCairoInfoMapping × String) (idx : Nat) :
    SierraCairoInfoMapping × String :=
  let mapping := acc.1
  let contract_content := acc.2
  let mapping :=
    match statements_functions_map idx with
    | some function_name =>
      match IndexMap.get? mapping idx with
      | some info => IndexMap.set mapping idx { info with fn_name := function_name }
      | none => IndexMap.append mapping idx ⟨function_name, none⟩
    | none => mapping
  match diagnostic_locations idx with
  | some locations =>
    match IndexMap.get? mapping idx with
    | some info =>
      let folded := List.foldl (processLocation db) (contract_content, info.cairo_locations)
        locations
      (IndexMap.set mapping idx { info with cairo_locations := folded.2 }, folded.1)
    | none => (mapping, contract_content)
  | none => (mapping, contract_content)

/-- `generate_sierra_to_cairo_statement_info` from cairo_helper.rs lines
196-277.  The sparse fact maps `statements_functions_map` (statement index →
function name) and `diagnostic_locations` (statement index → raw diagnostic
locations) are consumed only through `get`, so they are modelled as
functions into `Option`.  The Rust return type is
`Result<SierraCairoStatement, std::io::Error>`; the body's only exit is
`Ok(..)`. -/
def generate_sierra_to_cairo_statement_info (db : Db) (no_of_statements : Nat)
    (statements_functions_map : Nat → Option String)
    (diagnostic_locations : Nat → Option (List DiagnosticLocation)) :
    Except String SierraCairoStatement :=
  let folded := List.foldl
    (processStatement db statements_functions_map diagnostic_locations)
    (([] : SierraCairoInfoMapping), "") (List.range no_of_statements)
  .ok ⟨folded.2, folded.1⟩

/-- `trace_error` from compiler/helper.rs lines 9-50, with the
`casm_sierra_mapping` and `sierra_cairo_info_mapping` of the compilation
result already extracted (the `match` on `CompilationResultType` only selects
these two fields).  The Rust function prints; the model records what is
printed: `notFound` for the `else` branch, `found` with the
`cairo_locations` printed for each statement index present in the info
mapping (absent ones are skipped by the `if let`). -/
inductive TraceOutcome where
  | found : List (Option (List CairoLocation)) → TraceOutcome
  | notFound : TraceOutcome
deriving DecidableEq

def trace_error (pc : Nat) (casm_sierra_mapping : CasmSierraMapping)
    (sierra_cairo_info_mapping : SierraCairoInfoMapping) : TraceOutcome :=
  match List.find? (fun p => p.1 = pc) casm_sierra_mapping with
  | some sierra_instruction =>
    .found (sierra_instruction.2.filterMap (fun statement_index =>
      (IndexMap.get? sierra_cairo_info_mapping statement_index).map
        (fun cairo_info => cairo_info.cairo_locations)))
  | none => .notFound

/-! The instruction side of cairo.rs.  The assembler types
(`cairo_lang_casm::assembler`) are external; their enums are mirrored, and
`instruction.assemble()` / `.encode()` are modelled by carrying the
assembled representation and its encoded word list on the instruction. -/

inductive Register where
  | AP
  | FP
deriving DecidableEq, Repr

/-- `cairo_lang_casm::assembler::Op1Addr`. -/
inductive Op1Addr where
  | Imm
  | AP
  | FP
  | Op0
deriving DecidableEq, Repr

/-- `Op1AddrI` from cairo.rs. -/
inductive Op1AddrI where
  | Imm
  | AP
  | FP
  | Op0
deriving DecidableEq, Repr

inductive Res where
  | Op1
  | Add
  | Mul
  | Unconstrained
deriving DecidableEq, Repr

/-- `ResI` from cairo.rs. -/
inductive ResI where
  | Op1
  | Add
  | Mul
  | Unconstrained
deriving DecidableEq, Repr

inductive PcUpdate where
  | Regular
  | Jump
  | JumpRel
  | Jnz
deriving DecidableEq, Repr

/-- `PcUpdateI` from cairo.rs. -/
inductive PcUpdateI where
  | Regular
  | Jump
  | JumpRel
  | Jnz
deriving DecidableEq, Repr

inductive ApUpdate where
  | Regular
  | Add
  | Add1
  | Add2
deriving DecidableEq, Repr

/-- `ApUpdateI` from cairo.rs. -/
inductive ApUpdateI where
  | Regular
  | Add
  | Add1
  | Add2
deriving DecidableEq, Repr

inductive FpUpdate where
  | Regular
  | ApPlus2
  | Dst
deriving DecidableEq, Repr

/-- `FpUpdateI` from cairo.rs. -/
inductive FpUpdateI where
  | Regular
  | ApPlus2
  | Dst
deriving DecidableEq, Repr

inductive Opcode where
  | Nop
  | AssertEq
  | Call
  | Ret
deriving DecidableEq, Repr

/-- `OpcodeI` from cairo.rs. -/
inductive OpcodeI where
  | Nop
  | AssertEq
  | Call
  | Ret
deriving DecidableEq, Repr

/-- The assembler's `InstructionRepr` (`instruction.assemble()`), together
with the word list its `encode()` produces (words are non-negative field
elements, rendered `0x{:x}`). -/
structure AssembledInstruction where
  off0 : Int
  off1 : Int
  off2 : Int
  imm : Option Int
  dst_register : Register
  op0_register : Register
  op1_addr : Op1Addr
  res : Res
  pc_update : PcUpdate
  ap_update : ApUpdate
  fp_update : FpUpdate
  opcode : Opcode
  encoding : List Nat
deriving DecidableEq, Repr

/-- An instruction of `cairo_program.instructions`, carrying what
`instruction.assemble()` returns for it. -/
structure Instruction where
  assemble : AssembledInstruction
deriving DecidableEq, Repr

/-- `InstructionRepr` from cairo.rs (the repository's own copy). -/
structure InstructionRepr where
  off0 : Int
  off1 : Int
  off2 : Int
  imm : Option Int
  dst_register : Register
  op0_register : Register
  op1_addr : Op1AddrI
  res : ResI
  pc_update : PcUpdateI
  ap_update : ApUpdateI
  fp_update : FpUpdateI
  opcode : OpcodeI
deriving DecidableEq, Repr

/-- `CasmInstruction` from cairo.rs. -/
structure CasmInstruction where
  memory : String
  instruction_index : Nat
  instruction_representation : Option InstructionRepr
deriving DecidableEq, Repr

/-- `CasmSierraMappingInstruction` from cairo.rs. -/
structure CasmSierraMappingInstruction where
  casm_instructions : List CasmInstruction
  casm_sierra_mapping : CasmSierraMapping

/-- The enum translations of cairo.rs lines 135-174 applied to an assembled
instruction: the `InstructionRepr` pushed with the first word. -/
def convertRepr (r : AssembledInstruction) : InstructionRepr :=
  let op1_addr := match r.op1_addr with
    | Op1Addr.Imm => Op1AddrI.Imm
    | Op1Addr.AP => Op1AddrI.AP
    | Op1Addr.FP => Op1AddrI.FP
    | Op1Addr.Op0 => Op1AddrI.Op0
  let res := match r.res with
    | Res.Op1 => ResI.Op1
    | Res.Add => ResI.Add
    | Res.Mul => ResI.Mul
    | Res.Unconstrained => ResI.Unconstrained
  let pc_update := match r.pc_update with
    | PcUpdate.Regular => PcUpdateI.Regular
    | PcUpdate.Jump => PcUpdateI.Jump
    | PcUpdate.JumpRel => PcUpdateI.JumpRel
    | PcUpdate.Jnz => PcUpdateI.Jnz
  let ap_update := match r.ap_update with
    | ApUpdate.Regular => ApUpdateI.Regular
    | ApUpdate.Add => ApUpdateI.Add
    | ApUpdate.Add1 => ApUpdateI.Add1
    | ApUpdate.Add2 => ApUpdateI.Add2
  let fp_update := match r.fp_update with
    | FpUpdate.Regular => FpUpdateI.Regular
    | FpUpdate.ApPlus2 => FpUpdateI.ApPlus2
    | FpUpdate.Dst => FpUpdateI.Dst
  let opcode := match r.opcode with
    | Opcode.Nop => OpcodeI.Nop
    | Opcode.AssertEq => OpcodeI.AssertEq
    | Opcode.Call => OpcodeI.Call
    | Opcode.Ret => OpcodeI.Ret
  ⟨r.off0, r.off1, r.off2, r.imm, r.dst_register, r.op0_register,
    op1_addr, res, pc_update, ap_update, fp_update, opcode⟩

/-- `format!("0x{:x}", encoded_instruction)`: lowercase hex with `0x`. -/
def hexWord (w : Nat) : String :=
  "0x" ++ String.mk (Nat.toDigits 16 w)

/-- The body of the `for encoded_instruction in encoded_instructions` loop of
cairo.rs lines 131-202: push one `CasmInstruction`; the flag `first` selects
whether the decoded representation is attached, and is cleared after the
first word. -/
def pushWord (index : Nat) (instruction : Instruction)
    (acc : List CasmInstruction × Bool) (w : Nat) : List CasmInstruction × Bool :=
  let casm_instructions := acc.1
  let first := acc.2
  let hex_instruction := hexWord w
  if first then
    (casm_instructions ++
      [⟨hex_instruction, index, some (convertRepr instruction.assemble)⟩], false)
  else
    (casm_instructions ++ [⟨hex_instruction, index, none⟩], false)

/-- The instruction loop of `get_casm_sierra_mapping_instructions`
(cairo.rs lines 125-203): enumerate instructions, and for each one fold its
encoded word list with a fresh `first = true` flag. -/
def get_casm_instructions (instructions : List Instruction) : List CasmInstruction :=
  List.foldl
    (fun casm_instructions p =>
      (List.foldl (pushWord p.1 p.2) (casm_instructions, true) p.2.assemble.encoding).1)
    [] instructions.enum

/-- `CairoProgram`'s fields consumed by `get_casm_sierra_mapping_instructions`:
the instruction list and the `sierra_statement_info` debug annotations (each
annotation's `instruction_idx`, in order). -/
structure CairoProgram where
  instructions : List Instruction
  sierra_statement_info : List Nat

/-- `get_casm_sierra_mapping_instructions` from cairo.rs lines 122-223; the
body's only exit is `Ok(..)`. -/
def get_casm_sierra_mapping_instructions (cairo_program : CairoProgram) :
    Except String CasmSierraMappingInstruction :=
  .ok ⟨get_casm_instructions cairo_program.instructions,
    get_casm_sierra_mapping cairo_program.sierra_statement_info⟩

/-! ### Characterization of `get_casm_sierra_mapping` -/

/-- The statement indices annotated with instruction ordinal `k`, in
annotation order: the expected value of `casm_sierra_mapping` at key `k`. -/
def statementsAt (sierra_statement_info : List Nat) (k : Nat) : List Nat :=
  List.map Prod.fst (List.filter (fun p => p.2 = k) sierra_statement_info.enum)

/-! ### Closed forms used to characterize `generate_sierra_to_cairo_statement_info` -/

/-- The `CairoLocation` built for one raw diagnostic location
(cairo_helper.rs lines 236-267). -/
def mkCairoLocation (db : Db) (location : DiagnosticLocation) : CairoLocation :=
  ⟨db.file_name location.file_id,
    resolvePosition db location.file_id location.span_start,
    resolvePosition db location.file_id location.span_end⟩

/-- The `cairo_locations` field a statement record ends up with. -/
def locationsOf (db : Db)
    (diagnostic_locations : Nat → Option (List DiagnosticLocation)) (idx : Nat) :
    Option (List CairoLocation) :=
  match diagnostic_locations idx with
  | some locs => if locs = [] then none else some (List.map (mkCairoLocation db) locs)
  | none => none

/-- The table the builder produces: one entry per statement index in
`0..no_of_statements` owning a function-name fact, in index order. -/
def infoTable (db : Db) (no_of_statements : Nat)
    (statements_functions_map : Nat → Option String)
    (diagnostic_locations : Nat → Option (List DiagnosticLocation)) :
    SierraCairoInfoMapping :=
  List.filterMap
    (fun idx => Option.map
      (fun f => (idx, CairoInfo.mk f (locationsOf db diagnostic_locations idx)))
      (statements_functions_map idx))
    (List.range no_of_statements)

/-- The `contract_content` update performed for one diagnostic location
(cairo_helper.rs lines 227-234). -/
def captureStep (db : Db) (contract_content : String) (location : DiagnosticLocation) :
    String :=
  if contract_content.isEmpty ∧ db.file_name location.file_id = "contract" then
    match db.lookup_virtual location.file_id with
    | some content => content
    | none => contract_content
  else contract_content

/-- All diagnostic locations the builder's inner loop actually visits, in
visit order: those of statement indices in range that own a function-name
fact. -/
def processedLocations (statements_functions_map : Nat → Option String)
    (diagnostic_locations : Nat → Option (List DiagnosticLocation))
    (no_of_statements : Nat) : List DiagnosticLocation :=
  (List.map
    (fun idx =>
      if (statements_functions_map idx).isSome then (diagnostic_locations idx).getD []
      else [])
    (List.range no_of_statements)).flatten

/-- The final `contract_content`: the capture step folded over the visited
locations. -/
def contractCapture (db : Db) (statements_functions_map : Nat → Option String)
    (diagnostic_locations : Nat → Option (List DiagnosticLocation))
    (no_of_statements : Nat) : String :=
  List.foldl (captureStep db) ""
    (processedLocations statements_functions_map diagnostic_locations no_of_statements)

/-- The content a single location contributes to the contract capture: the
interned virtual content of its file when that file is named "contract" and
the content is non-empty. -/
def capturedContent (db : Db) (location : DiagnosticLocation) : Option String :=
  if db.file_name location.file_id = "contract" then
    match db.lookup_virtual location.file_id with
    | some content => if content.isEmpty then none else some content
    | none => none
  else none

/-! ### Concrete sample inputs used by counterexamples and witnesses -/

/-- A database with no resolvable positions, no virtual files and empty file
names. -/
def db0 : Db := ⟨fun _ => "", fun _ _ => none, fun _ => none⟩

/-- A database where every file is a virtual file named "contract"; file 0
has empty content, every other file has content "x". -/
def db1 : Db :=
  ⟨fun _ => "contract", fun _ _ => none, fun fid => if fid = 0 then some "" else some "x"⟩

/-- A database resolving every offset to line 3, column 4, with file names
"main.src". -/
def db2 : Db := ⟨fun _ => "main.src", fun _ _ => some ⟨3, 4⟩, fun _ => none⟩

/-- A one-word instruction. -/
def sampleInstr1 : Instruction :=
  ⟨⟨0, 0, 0, none, .AP, .AP, .Imm, .Op1, .Regular, .Regular, .Regular, .Nop, [255]⟩⟩

/-- A two-word instruction (immediate operand). -/
def sampleInstr2 : Instruction :=
  ⟨⟨0, 0, 0, some 7, .AP, .AP, .Imm, .Op1, .Regular, .Regular, .Regular, .Call, [16, 7]⟩⟩

/-- Append semantics of the option-valued list accumulated per key. -/
def optAppend (o : Option (List Nat)) (xs : List Nat) : Option (List Nat) :=
  if xs = [] then o else some (o.getD [] ++ xs)

/-- The block of `CasmInstruction` entries emitted for one instruction: one
entry per encoded word, the first carrying the decoded representation. -/
def wordBlock (index : Nat) (instruction : Instruction) : List CasmInstruction :=
  match instruction.assemble.encoding with
  | [] => []
  | w :: ws =>
    ⟨hexWord w, index, some (convertRepr instruction.assemble)⟩ ::
      List.map (fun w => ⟨hexWord w, index, none⟩) ws

theorem get?_nil {β : Type} (k : Nat) : IndexMap.get? ([] : IndexMap Nat β) k = none := rfl

theorem get?_pushEntry (m : IndexMap Nat (List Nat)) (k v k' : Nat) :
    IndexMap.get? (pushEntry m k v) k' =
      if k' = k then some ((IndexMap.get? m k).getD [] ++ [v]) else IndexMap.get? m k' := by
  induction m with
  | nil =>
    simp only [pushEntry, IndexMap.get?, List.find?]
    by_cases h : k' = k
    · subst h; simp
    · simp [h, Ne.symm h]
  | cons hd tl ih =>
    obtain ⟨k'', l⟩ := hd
    simp only [pushEntry]
    by_cases h1 : k'' = k
    · subst h1
      by_cases h2 : k' = k''
      · subst h2
        simp [IndexMap.get?, List.find?]
      · simp [IndexMap.get?, List.find?, h2, Ne.symm h2]
    · by_cases h2 : k' = k''
      · subst h2
        simp [IndexMap.get?, List.find?, h1, Ne.symm h1]
      · simp only [IndexMap.get?, List.find?] at ih ⊢
        by_cases h3 : k' = k
        · subst h3
          simpa [h1, h2, Ne.symm h2] using ih
        · simpa [h1, h2, h3, Ne.symm h2] using ih

theorem get?_foldl_pushEntry (pairs : List (Nat × Nat)) (m : IndexMap Nat (List Nat)) (k : Nat) :
    IndexMap.get? (List.foldl (fun m p => pushEntry m p.2 p.1) m pairs) k =
      optAppend (IndexMap.get? m k)
        (List.map Prod.fst (List.filter (fun p => p.2 = k) pairs)) := by
  induction pairs generalizing m with
  | nil => simp [optAppend]
  | cons p pairs ih =>
    obtain ⟨v, k'⟩ := p
    simp only [List.foldl_cons]
    rw [ih]
    by_cases h : k' = k
    · subst h
      rw [get?_pushEntry, if_pos rfl, List.filter_cons, if_pos (by simp), List.map_cons]
      simp only [optAppend]
      by_cases h2 : List.map Prod.fst (List.filter (fun p => p.2 = k') pairs) = []
      · simp [h2]
      · simp [h2]
    · rw [get?_pushEntry, if_neg (fun hk => h hk.symm), List.filter_cons,
        if_neg (by simpa using h)]

/-- C7 core: the list stored at key `k` is exactly the statement indices
annotated with `k`, in annotation order; keys with no annotation are absent. -/
theorem get?_casm_sierra_mapping (sierra_statement_info : List Nat) (k : Nat) :
    IndexMap.get? (get_casm_sierra_mapping sierra_statement_info) k =
      if statementsAt sierra_statement_info k = [] then none
      else some (statementsAt sierra_statement_info k) := by
  have h := get?_foldl_pushEntry sierra_statement_info.enum [] k
  rw [get?_nil] at h
  rw [get_casm_sierra_mapping, h]
  simp only [optAppend, statementsAt]
  split <;> simp_all

theorem mem_statementsAt (sierra_statement_info : List Nat) (k i : Nat) :
    i ∈ statementsAt sierra_statement_info k ↔
      sierra_statement_info.get? i = some k := by
  rw [← List.mem_enum_iff_get? (x := (i, k))]
  simp only [statementsAt, List.mem_map, List.mem_filter, decide_eq_true_eq]
  constructor
  · rintro ⟨⟨a, b⟩, ⟨hmem, hb⟩, rfl⟩
    simp only at hb
    subst hb
    exact hmem
  · intro h
    exact ⟨(i, k), ⟨h, rfl⟩, rfl⟩

theorem statementsAt_pairwise (sierra_statement_info : List Nat) (k : Nat) :
    List.Pairwise (· < ·) (statementsAt sierra_statement_info k) := by
  have hsub : (statementsAt sierra_statement_info k).Sublist
      (List.map Prod.fst sierra_statement_info.enum) :=
    List.Sublist.map Prod.fst (List.filter_sublist _)
  rw [List.enum_map_fst] at hsub
  exact List.Pairwise.sublist hsub (List.pairwise_lt_range _)

/-! ### Characterization of `get_casm_instructions` -/

theorem foldl_pushWord_false (index : Nat) (instruction : Instruction)
    (ws : List Nat) (acc : List CasmInstruction) :
    List.foldl (pushWord index instruction) (acc, false) ws =
      (acc ++ List.map (fun w => (⟨hexWord w, index, none⟩ : CasmInstruction)) ws, false) := by
  induction ws generalizing acc with
  | nil => simp
  | cons w ws ih =>
    simp only [List.foldl_cons, pushWord, if_neg (Bool.false_ne_true ∘ id)]
    rw [ih]
    simp

theorem foldl_pushWord_true (index : Nat) (instruction : Instruction)
    (acc : List CasmInstruction) :
    (List.foldl (pushWord index instruction) (acc, true) instruction.assemble.encoding).1 =
      acc ++ wordBlock index instruction := by
  rcases henc : instruction.assemble.encoding with _ | ⟨w, ws⟩
  · simp [wordBlock, henc]
  · simp only [wordBlock, henc, List.foldl_cons, pushWord, if_pos trivial]
    rw [foldl_pushWord_false]
    simp

theorem foldl_blocks (pairs : List (Nat × Instruction)) (acc : List CasmInstruction) :
    List.foldl
        (fun casm_instructions p =>
          (List.foldl (pushWord p.1 p.2) (casm_instructions, true) p.2.assemble.encoding).1)
        acc pairs =
      acc ++ (List.map (fun p => wordBlock p.1 p.2) pairs).flatten := by
  induction pairs generalizing acc with
  | nil => simp
  | cons p pairs ih =>
    simp only [List.foldl_cons]
    rw [foldl_pushWord_true, ih]
    simp

/-- The instruction loop emits, in order, one block per instruction. -/
theorem get_casm_instructions_eq (instructions : List Instruction) :
    get_casm_instructions instructions =
      (List.map (fun p => wordBlock p.1 p.2) instructions.enum).flatten := by
  rw [get_casm_instructions, foldl_blocks]
  simp

theorem length_wordBlock (index : Nat) (instruction : Instruction) :
    (wordBlock index instruction).length = instruction.assemble.encoding.length := by
  rcases h : instruction.assemble.encoding with _ | ⟨w, ws⟩ <;> simp [wordBlock, h]

theorem index_mem_wordBlock (index : Nat) (instruction : Instruction) :
    ∀ c ∈ wordBlock index instruction, c.instruction_index = index := by
  intro c hc
  rcases h : instruction.assemble.encoding with _ | ⟨w, ws⟩ <;> rw [wordBlock, h] at hc
  · simp at hc
  · simp only [List.mem_cons, List.mem_map] at hc
    rcases hc with rfl | ⟨w', _, rfl⟩ <;> rfl

theorem filter_wordBlock (index i : Nat) (instruction : Instruction) :
    List.filter (fun c => c.instruction_index = i) (wordBlock index instruction) =
      if index = i then wordBlock index instruction else [] := by
  split
  · next h =>
    subst h
    exact List.filter_eq_self.2 (fun c hc => by
      simp [index_mem_wordBlock index instruction c hc])
  · next h =>
    exact List.filter_eq_nil.2 (fun c hc => by
      simp [index_mem_wordBlock index instruction c hc, h])

theorem enum_pairwise_fst_lt {α : Type} (l : List α) :
    List.Pairwise (fun p q => p.1 < q.1) l.enum := by
  have h := List.pairwise_lt_range l.length
  rw [← List.enum_map_fst l] at h
  exact List.pairwise_map.mp h

theorem flatten_map_ite {α β : Type} (l : List α) (cond : α → Bool) (f : α → List β) :
    (List.map (fun a => if cond a then f a else []) l).flatten =
      (List.map f (List.filter cond l)).flatten := by
  induction l with
  | nil => rfl
  | cons a l ih =>
    by_cases h : cond a = true
    · simp [List.filter_cons, h, ih]
    · simp only [Bool.not_eq_true] at h
      simp [List.filter_cons, h, ih]

theorem filter_get_casm_instructions (instructions : List Instruction) (i : Nat) :
    List.filter (fun c => c.instruction_index = i) (get_casm_instructions instructions) =
      (List.map (fun p => wordBlock p.1 p.2)
        (List.filter (fun p => p.1 = i) instructions.enum)).flatten := by
  rw [get_casm_instructions_eq, List.filter_flatten, List.map_map]
  rw [List.map_congr_left (g := fun p : Nat × Instruction =>
    if (p.1 = i : Bool) then wordBlock p.1 p.2 else [])]
  · exact flatten_map_ite _ _ _
  · intro p _
    simp only [Function.comp_apply, filter_wordBlock, decide_eq_true_eq]

/-- In a list whose first components are strictly increasing, filtering on
one first component yields exactly the one matching entry. -/
theorem filter_fst_singleton_of_pairwise {α : Type} (L : List (Nat × α))
    (hpw : List.Pairwise (fun p q : Nat × α => p.1 < q.1) L) (p : Nat × α) (hp : p ∈ L) :
    List.filter (fun q => q.1 = p.1) L = [p] := by
  induction L with
  | nil => cases hp
  | cons a L ih =>
    rcases List.pairwise_cons.mp hpw with ⟨ha, hL⟩
    rcases List.mem_cons.mp hp with rfl | hp'
    · rw [List.filter_cons, if_pos (by simp)]
      rw [List.filter_eq_nil_iff.mpr]
      intro q hq
      simpa using Nat.ne_of_gt (ha q hq)
    · rw [List.filter_cons, if_neg (by simpa using Nat.ne_of_lt (ha p hp'))]
      exact ih hL hp'

/-- At most one enum entry carries a given index, so the filtered enum is
a singleton at any present index. -/
theorem enum_filter_fst_singleton {α : Type} (l : List α) (p : Nat × α)
    (hp : p ∈ l.enum) :
    List.filter (fun q => q.1 = p.1) l.enum = [p] :=
  filter_fst_singleton_of_pairwise l.enum (enum_pairwise_fst_lt l) p hp

/-! ### Characterization of `generate_sierra_to_cairo_statement_info` -/

theorem get?_append_list {β : Type} (m₁ m₂ : IndexMap Nat β) (k : Nat) :
    IndexMap.get? (m₁ ++ m₂) k = (IndexMap.get? m₁ k).or (IndexMap.get? m₂ k) := by
  simp only [IndexMap.get?, List.find?_append]
  cases List.find? (fun p => p.1 = k) m₁ <;> simp

theorem get?_eq_none_of_forall {β : Type} (m : IndexMap Nat β) (k : Nat)
    (h : ∀ p ∈ m, p.1 ≠ k) : IndexMap.get? m k = none := by
  have hf : List.find? (fun p => p.1 = k) m = none :=
    List.find?_eq_none.mpr (fun p hp => by simpa using h p hp)
  simp [IndexMap.get?, hf]

theorem get?_append_fresh {β : Type} (m : IndexMap Nat β) (k : Nat) (v : β)
    (h : IndexMap.get? m k = none) :
    IndexMap.get? (IndexMap.append m k v) k = some v := by
  rw [IndexMap.append, get?_append_list, h]
  simp [IndexMap.get?, List.find?]

theorem set_append_fresh {β : Type} (m : IndexMap Nat β) (k : Nat) (v v' : β)
    (h : ∀ p ∈ m, p.1 ≠ k) :
    IndexMap.set (m ++ [(k, v)]) k v' = m ++ [(k, v')] := by
  simp only [IndexMap.set, List.map_append]
  congr 1
  · have h1 : List.map (fun p : Nat × β => if p.1 = k then (k, v') else p) m
        = List.map (fun p => p) m :=
      List.map_congr_left (fun p hp => by rw [if_neg (h p hp)])
    rw [h1]
    simp
  · simp

theorem mem_infoTable_lt (db : Db) (no_of_statements : Nat)
    (statements_functions_map : Nat → Option String)
    (diagnostic_locations : Nat → Option (List DiagnosticLocation)) (p : Nat × CairoInfo)
    (hp : p ∈ infoTable db no_of_statements statements_functions_map diagnostic_locations) :
    p.1 < no_of_statements := by
  rw [infoTable] at hp
  obtain ⟨idx, hidx, hmap⟩ := List.mem_filterMap.mp hp
  rcases hf : statements_functions_map idx with _ | f
  · rw [hf] at hmap; cases hmap
  · rw [hf] at hmap
    cases hmap
    exact List.mem_range.mp hidx

theorem infoTable_succ (db : Db) (no_of_statements : Nat)
    (statements_functions_map : Nat → Option String)
    (diagnostic_locations : Nat → Option (List DiagnosticLocation)) :
    infoTable db (no_of_statements + 1) statements_functions_map diagnostic_locations =
      infoTable db no_of_statements statements_functions_map diagnostic_locations ++
        (match statements_functions_map no_of_statements with
          | some f => [(no_of_statements,
              CairoInfo.mk f (locationsOf db diagnostic_locations no_of_statements))]
          | none => []) := by
  rw [infoTable, infoTable, List.range_succ, List.filterMap_append]
  congr 1
  rcases hf : statements_functions_map no_of_statements with _ | f <;>
    simp [List.filterMap_cons, hf]

theorem get?_infoTable (db : Db) (no_of_statements : Nat)
    (statements_functions_map : Nat → Option String)
    (diagnostic_locations : Nat → Option (List DiagnosticLocation)) (j : Nat) :
    IndexMap.get?
        (infoTable db no_of_statements statements_functions_map diagnostic_locations) j =
      if j < no_of_statements then
        Option.map (fun f => CairoInfo.mk f (locationsOf db diagnostic_locations j))
          (statements_functions_map j)
      else none := by
  induction no_of_statements with
  | zero => simp [infoTable, get?_nil]
  | succ n ih =>
    rw [infoTable_succ, get?_append_list, ih]
    by_cases hjn : j = n
    · subst hjn
      rw [if_neg (Nat.lt_irrefl j), if_pos (Nat.lt_succ_self j), Option.none_or]
      rcases hf : statements_functions_map j with _ | f <;>
        simp [IndexMap.get?, List.find?]
    · have htail : IndexMap.get?
          (match statements_functions_map n with
            | some f => [(n, CairoInfo.mk f (locationsOf db diagnostic_locations n))]
            | none => []) j = none := by
        rcases hfn : statements_functions_map n with _ | fn
        · rfl
        · refine get?_eq_none_of_forall _ _ ?_
          intro p hp
          rcases List.mem_singleton.mp hp with rfl
          simpa using Ne.symm hjn
      rw [htail, Option.or_none]
      by_cases hj : j < n
      · rw [if_pos hj, if_pos (Nat.lt_succ_of_lt hj)]
      · rw [if_neg hj, if_neg (by omega)]

theorem keys_infoTable (db : Db) (no_of_statements : Nat)
    (statements_functions_map : Nat → Option String)
    (diagnostic_locations : Nat → Option (List DiagnosticLocation)) :
    IndexMap.keys
        (infoTable db no_of_statements statements_functions_map diagnostic_locations) =
      List.filter (fun i => (statements_functions_map i).isSome)
        (List.range no_of_statements) := by
  rw [infoTable, IndexMap.keys]
  induction List.range no_of_statements with
  | nil => rfl
  | cons a l ih =>
    rcases hf : statements_functions_map a with _ | f <;>
      simp [List.filterMap_cons, List.filter_cons, hf, ih]

theorem processLocation_eq (db : Db) (cc : String) (cl : Option (List CairoLocation))
    (location : DiagnosticLocation) :
    processLocation db (cc, cl) location =
      (captureStep db cc location, some (cl.getD [] ++ [mkCairoLocation db location])) := by
  rcases cl with _ | locs <;> rfl

theorem foldl_processLocation (db : Db) (locations : List DiagnosticLocation)
    (cc : String) (cl : Option (List CairoLocation)) :
    List.foldl (processLocation db) (cc, cl) locations =
      (List.foldl (captureStep db) cc locations,
        if locations = [] then cl
        else some (cl.getD [] ++ List.map (mkCairoLocation db) locations)) := by
  induction locations generalizing cc cl with
  | nil => rfl
  | cons location locations ih =>
    rw [List.foldl_cons, processLocation_eq, ih, List.foldl_cons]
    rcases locations with _ | ⟨l2, ls⟩
    · simp
    · simp

theorem generate_foldl_eq (db : Db) (statements_functions_map : Nat → Option String)
    (diagnostic_locations : Nat → Option (List DiagnosticLocation)) (no_of_statements : Nat) :
    List.foldl (processStatement db statements_functions_map diagnostic_locations)
        (([] : SierraCairoInfoMapping), "") (List.range no_of_statements) =
      (infoTable db no_of_statements statements_functions_map diagnostic_locations,
        contractCapture db statements_functions_map diagnostic_locations no_of_statements) := by
  induction no_of_statements with
  | zero => rfl
  | succ n ih =>
    rw [List.range_succ, List.foldl_append, ih]
    have hget : IndexMap.get?
        (infoTable db n statements_functions_map diagnostic_locations) n = none := by
      rw [get?_infoTable, if_neg (Nat.lt_irrefl n)]
    have hcc : contractCapture db statements_functions_map diagnostic_locations (n + 1) =
        List.foldl (captureStep db)
          (contractCapture db statements_functions_map diagnostic_locations n)
          (if (statements_functions_map n).isSome then (diagnostic_locations n).getD []
            else []) := by
      rw [contractCapture, contractCapture, processedLocations, processedLocations,
        List.range_succ, List.map_append, List.flatten_append, List.foldl_append]
      simp
    rw [List.foldl_cons, List.foldl_nil, infoTable_succ, hcc]
    rcases hf : statements_functions_map n with _ | fn
    · simp only [processStatement, hf, hget]
      rcases hd : diagnostic_locations n with _ | locs <;> simp [hget]
    · simp only [processStatement, hf, hget]
      rcases hd : diagnostic_locations n with _ | locs
      · simp [locationsOf, hd, IndexMap.append]
      · have hget2 : IndexMap.get?
            (IndexMap.append (infoTable db n statements_functions_map diagnostic_locations) n
              (CairoInfo.mk fn none)) n = some (CairoInfo.mk fn none) :=
          get?_append_fresh _ _ _ hget
        simp only [hget2, foldl_processLocation]
        have hset : IndexMap.set
            (IndexMap.append (infoTable db n statements_functions_map diagnostic_locations) n
              (CairoInfo.mk fn none)) n
            (CairoInfo.mk fn
              (if locs = [] then none
                else some (List.map (mkCairoLocation db) locs))) =
            infoTable db n statements_functions_map diagnostic_locations ++
              [(n, CairoInfo.mk fn (locationsOf db diagnostic_locations n))] := by
          rw [IndexMap.append, set_append_fresh _ _ _ _
            (fun p hp => Nat.ne_of_lt (mem_infoTable_lt db n _ _ p hp))]
          rw [locationsOf, hd]
        simp [hset]

/-- The builder always exits through `Ok`, with the characterized table and
contract content. -/
theorem generate_eq (db : Db) (statements_functions_map : Nat → Option String)
    (diagnostic_locations : Nat → Option (List DiagnosticLocation)) (no_of_statements : Nat) :
    generate_sierra_to_cairo_statement_info db no_of_statements statements_functions_map
        diagnostic_locations =
      Except.ok
        ⟨contractCapture db statements_functions_map diagnostic_locations no_of_statements,
          infoTable db no_of_statements statements_functions_map diagnostic_locations⟩ := by
  rw [generate_sierra_to_cairo_statement_info, generate_foldl_eq]

theorem foldl_captureStep (db : Db) (locations : List DiagnosticLocation) (cc : String) :
    List.foldl (captureStep db) cc locations =
      if cc.isEmpty then
        ((List.filterMap (capturedContent db) locations).head?).getD ""
      else cc := by
  induction locations generalizing cc with
  | nil =>
    rcases hcc : cc.isEmpty with _ | _
    · simp [hcc]
    · simp [hcc, (String.isEmpty_iff cc).mp hcc]
  | cons location locations ih =>
    rw [List.foldl_cons, ih, List.filterMap_cons]
    rcases hcc : cc.isEmpty with _ | _
    · have hstep : captureStep db cc location = cc := by
        rw [captureStep, if_neg]
        simp [hcc]
      rw [hstep]
      simp [hcc]
    · have hcc' : cc = "" := (String.isEmpty_iff cc).mp hcc
      subst hcc'
      by_cases hname : db.file_name location.file_id = "contract"
      · have hcond : ("".isEmpty ∧ db.file_name location.file_id = "contract") :=
          And.intro rfl hname
        rcases hlv : db.lookup_virtual location.file_id with _ | content
        · have hstep : captureStep db "" location = "" := by
            rw [captureStep, if_pos hcond, hlv]
          have hcap : capturedContent db location = none := by
            rw [capturedContent, if_pos hname, hlv]
          rw [hstep, hcap]
          simp [hcc]
        · rcases hc : content.isEmpty with _ | _
          · have hstep : captureStep db "" location = content := by
              rw [captureStep, if_pos hcond, hlv]
            have hcap : capturedContent db location = some content := by
              rw [capturedContent, if_pos hname, hlv]
              simp [hc]
            rw [hstep, hcap]
            simp [hc, hcc]
          · have hc' : content = "" := (String.isEmpty_iff content).mp hc
            subst hc'
            have hstep : captureStep db "" location = "" := by
              rw [captureStep, if_pos hcond, hlv]
            have hcap : capturedContent db location = none := by
              rw [capturedContent, if_pos hname, hlv]
              simp [hc]
            rw [hstep, hcap]
            simp [hcc]
      · have hstep : captureStep db "" location = "" := by
          rw [captureStep, if_neg (fun h => hname h.2)]
        have hcap : capturedContent db location = none := by
          rw [capturedContent, if_neg hname]
        rw [hstep, hcap]
        simp [hcc]

/-- The final `contract_code`: the first non-empty virtual "contract" content
among the visited locations, or the empty string. -/
theorem contractCapture_eq (db : Db) (statements_functions_map : Nat → Option String)
    (diagnostic_locations : Nat → Option (List DiagnosticLocation)) (no_of_statements : Nat) :
    contractCapture db statements_functions_map diagnostic_locations no_of_statements =
      ((List.filterMap (capturedContent db)
        (processedLocations statements_functions_map diagnostic_locations
          no_of_statements)).head?).getD "" := by
  rw [contractCapture, foldl_captureStep]
  rfl

/-! ### Claim theorems -/

/-- C1 counterexample: with one statement and no function-name fact, the
table built by `generate_sierra_to_cairo_statement_info` is empty, so its
keys are not `0..N-1` (here `[]` instead of `[0]`): the table is not dense. -/
theorem dense_table_counterexample :
    ∃ r, generate_sierra_to_cairo_statement_info db0 1 (fun _ => none) (fun _ => none) =
        Except.ok r ∧
      IndexMap.keys r.sierra_cairo_statement_info ≠ List.range 1 :=
  ⟨⟨"", []⟩, rfl, by decide⟩

/-- C1 (amended): the table built by `generate_sierra_to_cairo_statement_info`
has exactly one entry per statement index in `0..N-1` that has a
function-name fact; its keys are exactly those indices, in increasing order,
with no duplicates; indices without a function-name fact are absent (their
diagnostic locations are dropped). -/
theorem sierra_table_keys (db : Db) (no_of_statements : Nat)
    (statements_functions_map : Nat → Option String)
    (diagnostic_locations : Nat → Option (List DiagnosticLocation))
    (r : SierraCairoStatement)
    (h : generate_sierra_to_cairo_statement_info db no_of_statements
      statements_functions_map diagnostic_locations = Except.ok r) :
    IndexMap.keys r.sierra_cairo_statement_info =
      List.filter (fun i => (statements_functions_map i).isSome)
        (List.range no_of_statements) := by
  rw [generate_eq] at h
  cases h
  exact keys_infoTable db no_of_statements statements_functions_map diagnostic_locations

/-- C1 witness: a two-statement program with a function-name fact only at
index 1 yields a table with exactly the key 1. -/
theorem sierra_table_keys_witness :
    IndexMap.keys ((⟨"", [(1, ⟨"main", none⟩)]⟩ :
        SierraCairoStatement).sierra_cairo_statement_info) =
      List.filter (fun i => ((fun i => if i = 1 then some "main" else none) i :
        Option String).isSome) (List.range 2) :=
  sierra_table_keys db2 2 (fun i => if i = 1 then some "main" else none) (fun _ => none)
    ⟨"", [(1, ⟨"main", none⟩)]⟩ rfl

/-- C2 counterexample: an annotation list `[0]` puts statement index 0 into
the casm-sierra mapping, but with no function-name facts the statement-info
table has no key 0 at all. -/
theorem statement_key_missing_counterexample :
    IndexMap.get? (get_casm_sierra_mapping [0]) 0 = some [0] ∧
      ∃ r, generate_sierra_to_cairo_statement_info db0 1 (fun _ => none) (fun _ => none) =
          Except.ok r ∧
        IndexMap.get? r.sierra_cairo_statement_info 0 = none :=
  ⟨rfl, ⟨"", []⟩, rfl, rfl⟩

/-- C2 (amended): a statement index appearing in a list of the
casm-sierra mapping is present as a key of the statement-info table iff it is
below the statement count and has a function-name fact; `trace_error` skips
absent indices. -/
theorem statement_key_present_iff (db : Db) (no_of_statements : Nat)
    (statements_functions_map : Nat → Option String)
    (diagnostic_locations : Nat → Option (List DiagnosticLocation))
    (r : SierraCairoStatement) (sierra_statement_info : List Nat) (k : Nat)
    (l : List Nat) (s : Nat)
    (h : generate_sierra_to_cairo_statement_info db no_of_statements
      statements_functions_map diagnostic_locations = Except.ok r)
    (hl : IndexMap.get? (get_casm_sierra_mapping sierra_statement_info) k = some l)
    (hs : s ∈ l) :
    (IndexMap.get? r.sierra_cairo_statement_info s).isSome ↔
      (s < no_of_statements ∧ (statements_functions_map s).isSome) := by
  rw [generate_eq] at h
  cases h
  show (IndexMap.get? (infoTable db no_of_statements statements_functions_map
    diagnostic_locations) s).isSome ↔ _
  rw [get?_infoTable]
  by_cases hlt : s < no_of_statements
  · simp [hlt]
  · simp [hlt]

/-- C2 witness: with a function-name fact at statement 0, the key is present
for the statement index 0 reached through the casm-sierra mapping. -/
theorem statement_key_present_iff_witness :
    (IndexMap.get? ([(0, ⟨"f", none⟩)] : SierraCairoInfoMapping) 0).isSome ↔
      (0 < 1 ∧ ((fun _ : Nat => some "f") 0 : Option String).isSome) :=
  statement_key_present_iff db0 1 (fun _ => some "f") (fun _ => none)
    ⟨"", [(0, ⟨"f", none⟩)]⟩ [0] 0 [0] 0 rfl rfl (by decide)

/-- C3: among the entries of `casm_instructions` sharing one instruction
ordinal, the first carries the decoded representation and every later one
carries none, so exactly one entry per present ordinal has
`instruction_representation = some _`. -/
theorem casm_instructions_first_word_repr (instructions : List Instruction) (i : Nat)
    (e : CasmInstruction) (es : List CasmInstruction)
    (h : List.filter (fun c => c.instruction_index = i)
      (get_casm_instructions instructions) = e :: es) :
    e.instruction_representation.isSome ∧
      ∀ c ∈ es, c.instruction_representation = none := by
  rw [filter_get_casm_instructions] at h
  have hmem : ∀ q ∈ List.filter (fun p => p.1 = i) instructions.enum, q.1 = i := by
    intro q hq
    simpa using (List.mem_filter.mp hq).2
  have hpw : List.Pairwise (fun p q : Nat × Instruction => p.1 < q.1)
      (List.filter (fun p => p.1 = i) instructions.enum) :=
    List.Pairwise.sublist (List.filter_sublist _) (enum_pairwise_fst_lt instructions)
  rcases henum : List.filter (fun p => p.1 = i) instructions.enum with _ | ⟨p, rest⟩
  · rw [henum] at h
    cases h
  · rw [henum] at h hmem hpw
    have hrest : rest = [] := by
      rcases rest with _ | ⟨q, rest2⟩
      · rfl
      · exfalso
        have hpq : p.1 < q.1 := (List.pairwise_cons.mp hpw).1 q (by simp)
        have hp1 : p.1 = i := hmem p (by simp)
        have hq1 : q.1 = i := hmem q (by simp)
        rw [hp1, hq1] at hpq
        exact Nat.lt_irrefl i hpq
    subst hrest
    simp only [List.map_cons, List.map_nil, List.flatten_cons, List.flatten_nil,
      List.append_nil] at h
    rw [wordBlock] at h
    rcases henc : p.2.assemble.encoding with _ | ⟨w, ws⟩ <;> rw [henc] at h
    · cases h
    · cases h
      constructor
      · rfl
      · intro c hc
        rcases List.mem_map.mp hc with ⟨w2, _, rfl⟩
        rfl

/-- C3 witness: for a one-word and a two-word instruction, the entries of
ordinal 1 are the two words of the second instruction; the first has a
decoded representation, the second has none. -/
theorem casm_instructions_first_word_repr_witness :
    (⟨hexWord 16, 1, some (convertRepr sampleInstr2.assemble)⟩ :
        CasmInstruction).instruction_representation.isSome ∧
      ∀ c ∈ [(⟨hexWord 7, 1, none⟩ : CasmInstruction)],
        c.instruction_representation = none :=
  casm_instructions_first_word_repr [sampleInstr1, sampleInstr2] 1 _ _ rfl

/-- C4: `casm_instructions` has one entry per encoded word: its length is the
sum of the per-instruction word counts, its `instruction_index` values are
non-decreasing in input order, and for each enumerated instruction the
entries carrying its ordinal number exactly its encoded words. -/
theorem casm_instructions_shape (instructions : List Instruction) :
    (get_casm_instructions instructions).length =
        (List.map (fun ins => ins.assemble.encoding.length) instructions).sum ∧
      List.Pairwise (· ≤ ·)
        (List.map (fun c => c.instruction_index) (get_casm_instructions instructions)) ∧
      ∀ p ∈ instructions.enum,
        (List.filter (fun c => c.instruction_index = p.1)
          (get_casm_instructions instructions)).length = p.2.assemble.encoding.length := by
  refine ⟨?_, ?_, ?_⟩
  · rw [get_casm_instructions_eq, List.length_flatten, List.map_map]
    have h1 : List.map (List.length ∘ fun p : Nat × Instruction => wordBlock p.1 p.2)
        instructions.enum =
        List.map ((fun ins : Instruction => ins.assemble.encoding.length) ∘ Prod.snd)
          instructions.enum :=
      List.map_congr_left (fun p _ => length_wordBlock p.1 p.2)
    rw [h1, ← List.map_map, List.enum_map_snd]
  · rw [get_casm_instructions_eq, List.map_flatten, List.map_map]
    rw [List.pairwise_flatten]
    constructor
    · intro l hl
      rcases List.mem_map.mp hl with ⟨p, hp, rfl⟩
      apply List.pairwise_of_forall_mem_list
      intro a ha b hb
      rcases List.mem_map.mp ha with ⟨c, hc, rfl⟩
      rcases List.mem_map.mp hb with ⟨c2, hc2, rfl⟩
      rw [index_mem_wordBlock p.1 p.2 c hc, index_mem_wordBlock p.1 p.2 c2 hc2]
    · refine List.pairwise_map.mpr ?_
      refine List.Pairwise.imp ?_ (enum_pairwise_fst_lt instructions)
      intro p q hpq
      intro x hx y hy
      rcases List.mem_map.mp hx with ⟨c, hc, rfl⟩
      rcases List.mem_map.mp hy with ⟨c2, hc2, rfl⟩
      rw [index_mem_wordBlock p.1 p.2 c hc, index_mem_wordBlock q.1 q.2 c2 hc2]
      exact Nat.le_of_lt hpq
  · intro p hp
    rw [filter_get_casm_instructions, enum_filter_fst_singleton instructions p hp]
    simp [length_wordBlock]

/-- C4 witness: the one-word instruction at ordinal 0 contributes exactly one
entry. -/
theorem casm_instructions_shape_witness :
    (List.filter (fun c => c.instruction_index = 0)
      (get_casm_instructions [sampleInstr1, sampleInstr2])).length =
      ((0, sampleInstr1) : Nat × Instruction).2.assemble.encoding.length :=
  (casm_instructions_shape [sampleInstr1, sampleInstr2]).2.2 (0, sampleInstr1) (by decide)

/-- C5: `trace_error` is total and two-valued: when the pc has no entry in
the casm-sierra mapping it produces the explicit not-found outcome, and
otherwise it produces the located information for the mapped statement
indices, never an error. -/
theorem trace_error_total (pc : Nat) (casm_sierra_mapping : CasmSierraMapping)
    (sierra_cairo_info_mapping : SierraCairoInfoMapping) :
    (IndexMap.get? casm_sierra_mapping pc = none →
        trace_error pc casm_sierra_mapping sierra_cairo_info_mapping =
          TraceOutcome.notFound) ∧
      ∀ l, IndexMap.get? casm_sierra_mapping pc = some l →
        trace_error pc casm_sierra_mapping sierra_cairo_info_mapping =
          TraceOutcome.found (List.filterMap (fun statement_index =>
            Option.map (fun cairo_info => cairo_info.cairo_locations)
              (IndexMap.get? sierra_cairo_info_mapping statement_index)) l) := by
  rcases hf : List.find? (fun p => p.1 = pc) casm_sierra_mapping with _ | p
  · constructor
    · intro _
      rw [trace_error, hf]
    · intro l hl
      rw [IndexMap.get?, hf] at hl
      cases hl
  · constructor
    · intro hn
      rw [IndexMap.get?, hf] at hn
      cases hn
    · intro l hl
      rw [IndexMap.get?, hf] at hl
      cases hl
      rw [trace_error, hf]

/-- C5 witness: a pc with no entry yields the not-found outcome. -/
theorem trace_error_total_witness :
    trace_error 9 [(0, [1])] [] = TraceOutcome.notFound :=
  (trace_error_total 9 [(0, [1])] []).1 rfl

/-- C6: `generate_sierra_to_cairo_statement_info` always exits through `Ok`
(a local position-resolution failure never aborts the pass), and a failing
start or end offset resolution degrades to position `{line: 0, col: 0}`. -/
theorem generate_ok_and_degrade (db : Db) (no_of_statements : Nat)
    (statements_functions_map : Nat → Option String)
    (diagnostic_locations : Nat → Option (List DiagnosticLocation)) :
    (∃ r, generate_sierra_to_cairo_statement_info db no_of_statements
        statements_functions_map diagnostic_locations = Except.ok r) ∧
      ∀ file_id offset, db.position_in_file file_id offset = none →
        resolvePosition db file_id offset = ⟨0, 0⟩ := by
  constructor
  · exact ⟨_, generate_eq db statements_functions_map diagnostic_locations no_of_statements⟩
  · intro file_id offset h
    rw [resolvePosition, h]

/-- C6 witness: with a database that resolves nothing, resolution degrades to
the zero position. -/
theorem generate_ok_and_degrade_witness :
    resolvePosition db0 0 0 = ⟨0, 0⟩ :=
  (generate_ok_and_degrade db0 0 (fun _ => none) (fun _ => none)).2 0 0 rfl

/-- C7: the casm-sierra mapping stores, at each instruction ordinal, exactly
the statement indices annotated with that ordinal, in annotation order
(insert-if-absent then append, never overwriting); ordinals with no
annotation are absent. -/
theorem casm_sierra_mapping_appends_in_order (sierra_statement_info : List Nat)
    (k : Nat) :
    IndexMap.get? (get_casm_sierra_mapping sierra_statement_info) k =
      if statementsAt sierra_statement_info k = [] then none
      else some (statementsAt sierra_statement_info k) :=
  get?_casm_sierra_mapping sierra_statement_info k

/-- C8 counterexample: the first processed location references the virtual
file 0, named "contract", whose full content is the empty string; the claim
then requires `contract_code = ""`, but the code keeps capturing and returns
"x" from the second location, because the one-shot guard tests
`contract_content.is_empty()` rather than whether a capture happened. -/
theorem contract_capture_counterexample :
    db1.file_name 0 = "contract" ∧ db1.lookup_virtual 0 = some "" ∧
      ∃ r, generate_sierra_to_cairo_statement_info db1 1 (fun _ => some "f")
          (fun _ => some [⟨0, 0, 1⟩, ⟨1, 0, 1⟩]) = Except.ok r ∧
        r.contract_code = "x" ∧ r.contract_code ≠ "" :=
  ⟨rfl, rfl,
    ⟨"x", [(0, ⟨"f", some [⟨"contract", ⟨0, 0⟩, ⟨0, 0⟩⟩,
      ⟨"contract", ⟨0, 0⟩, ⟨0, 0⟩⟩]⟩)]⟩, rfl, rfl, by decide⟩

/-- C8 (amended): `contract_code` equals the content of the first processed
diagnostic location whose file is named "contract", is a virtual file, and
has non-empty content — and the empty string when no such location exists. -/
theorem contract_code_eq_first_nonempty (db : Db) (no_of_statements : Nat)
    (statements_functions_map : Nat → Option String)
    (diagnostic_locations : Nat → Option (List DiagnosticLocation))
    (r : SierraCairoStatement)
    (h : generate_sierra_to_cairo_statement_info db no_of_statements
      statements_functions_map diagnostic_locations = Except.ok r) :
    r.contract_code =
      ((List.filterMap (capturedContent db)
        (processedLocations statements_functions_map diagnostic_locations
          no_of_statements)).head?).getD "" := by
  rw [generate_eq] at h
  cases h
  exact contractCapture_eq db statements_functions_map diagnostic_locations no_of_statements

/-- C8 witness: on the two-location input of the counterexample, the first
captured non-empty content is "x". -/
theorem contract_code_eq_first_nonempty_witness :
    ((⟨"x", [(0, ⟨"f", some [⟨"contract", ⟨0, 0⟩, ⟨0, 0⟩⟩,
        ⟨"contract", ⟨0, 0⟩, ⟨0, 0⟩⟩]⟩)]⟩ : SierraCairoStatement)).contract_code =
      ((List.filterMap (capturedContent db1)
        (processedLocations (fun _ => some "f")
          (fun _ => some [⟨0, 0, 1⟩, ⟨1, 0, 1⟩]) 1)).head?).getD "" :=
  contract_code_eq_first_nonempty db1 1 (fun _ => some "f")
    (fun _ => some [⟨0, 0, 1⟩, ⟨1, 0, 1⟩])
    ⟨"x", [(0, ⟨"f", some [⟨"contract", ⟨0, 0⟩, ⟨0, 0⟩⟩,
      ⟨"contract", ⟨0, 0⟩, ⟨0, 0⟩⟩]⟩)]⟩ rfl

/-- C9: in the casm-sierra mapping built from an annotation list of length S,
every stored statement-index list is strictly increasing, and index i lies in
the list of ordinal k exactly when annotation i is k — so the lists contain
each statement index `0..S-1` exactly once, each in exactly one list. -/
theorem casm_sierra_mapping_partition (sierra_statement_info : List Nat) :
    (∀ k l, IndexMap.get? (get_casm_sierra_mapping sierra_statement_info) k = some l →
        List.Pairwise (· < ·) l) ∧
      ∀ i k, (∃ l, IndexMap.get? (get_casm_sierra_mapping sierra_statement_info) k =
          some l ∧ i ∈ l) ↔ sierra_statement_info.get? i = some k := by
  constructor
  · intro k l hl
    rw [get?_casm_sierra_mapping] at hl
    split at hl
    · cases hl
    · cases hl
      exact statementsAt_pairwise sierra_statement_info k
  · intro i k
    rw [get?_casm_sierra_mapping]
    split
    · next hnil =>
      constructor
      · rintro ⟨l, hl, _⟩
        cases hl
      · intro hg
        have hm := (mem_statementsAt sierra_statement_info k i).mpr hg
        rw [hnil] at hm
        cases hm
    · next hnil =>
      constructor
      · rintro ⟨l, hl, hm⟩
        cases hl
        exact (mem_statementsAt sierra_statement_info k i).mp hm
      · intro hg
        exact ⟨_, rfl, (mem_statementsAt sierra_statement_info k i).mpr hg⟩

/-- C9 witness: for annotations `[0, 0, 2, 1, 2]`, the list at ordinal 0 is
strictly increasing, and index 3 lies in the list of ordinal 1 because
annotation 3 is 1. -/
theorem casm_sierra_mapping_partition_witness :
    List.Pairwise (· < ·) ([0, 1] : List Nat) ∧
      ([0, 0, 2, 1, 2] : List Nat).get? 3 = some 1 :=
  ⟨(casm_sierra_mapping_partition [0, 0, 2, 1, 2]).1 0 [0, 1] rfl,
    ((casm_sierra_mapping_partition [0, 0, 2, 1, 2]).2 3 1).mp ⟨[3], rfl, by decide⟩⟩

/-- C10: every record of the table built by
`generate_sierra_to_cairo_statement_info` has `cairo_locations` equal to
`none` or to `some` of a non-empty list; `some []` is never produced. -/
theorem cairo_locations_none_or_nonempty (db : Db) (no_of_statements : Nat)
    (statements_functions_map : Nat → Option String)
    (diagnostic_locations : Nat → Option (List DiagnosticLocation))
    (r : SierraCairoStatement)
    (h : generate_sierra_to_cairo_statement_info db no_of_statements
      statements_functions_map diagnostic_locations = Except.ok r) :
    ∀ p ∈ r.sierra_cairo_statement_info,
      p.2.cairo_locations = none ∨
        ∃ ls, p.2.cairo_locations = some ls ∧ ls ≠ [] := by
  rw [generate_eq] at h
  cases h
  intro p hp
  obtain ⟨idx, hidx, hmap⟩ := List.mem_filterMap.mp hp
  rcases hf : statements_functions_map idx with _ | fn
  · rw [hf] at hmap
    cases hmap
  · rw [hf] at hmap
    cases hmap
    show locationsOf db diagnostic_locations idx = none ∨ _
    rw [locationsOf]
    rcases hd : diagnostic_locations idx with _ | locs
    · exact Or.inl rfl
    · rcases locs with _ | ⟨l1, ls⟩
      · exact Or.inl (by simp)
      · refine Or.inr ⟨mkCairoLocation db l1 :: List.map (mkCairoLocation db) ls, ?_, ?_⟩
        · simp
        · simp

/-- C10 witness: a statement with one resolvable location gets a singleton
`some` list, which is non-empty. -/
theorem cairo_locations_none_or_nonempty_witness :
    ((0, (⟨"f", some [⟨"main.src", ⟨3, 4⟩, ⟨3, 4⟩⟩]⟩ : CairoInfo)) :
        Nat × CairoInfo).2.cairo_locations = none ∨
      ∃ ls, ((0, (⟨"f", some [⟨"main.src", ⟨3, 4⟩, ⟨3, 4⟩⟩]⟩ : CairoInfo)) :
        Nat × CairoInfo).2.cairo_locations = some ls ∧ ls ≠ [] :=
  cairo_locations_none_or_nonempty db2 1 (fun _ => some "f")
    (fun _ => some [⟨5, 0, 3⟩])
    ⟨"", [(0, ⟨"f", some [⟨"main.src", ⟨3, 4⟩, ⟨3, 4⟩⟩]⟩)]⟩ rfl
    (0, ⟨"f", some [⟨"main.src", ⟨3, 4⟩, ⟨3, 4⟩⟩]⟩) (by decide)

end StarknetSimulator
